import Mathlib

/- A verification development for the Project core of rtags (src/Project.h):
   the dependency-node graph, the query-scoped FileMap LRU cache
   (`Project::FileMapScope`), the visited-files table (`Project::visitFile`,
   `Project::releaseFileIds`), the file-map naming helpers and the
   Location-based query overloads, shallowly embedded in Lean together with
   proofs of the specification claims about them.

   Containers: `Hash<K, V>` and `Map<K, V>` from the source are modelled as
   association lists with lookup / insert-or-assign / remove operations;
   `EmbeddedLinkedList` is modelled as a plain list (head = least recently
   used); `Set` is modelled as a duplicate-free list where only membership
   matters.  File ids (`uint32_t`) and source keys (`uint64_t`) are modelled
   as `Nat`; the shared pointers to opened `FileMap`s are identified by their
   allocation order within the scope. -/

namespace Rtags

/-- `Hash`/`Map` lookup: the value stored under key `k`, if any. -/
def alookup {α : Type} : List (Nat × α) → Nat → Option α
  | [], _ => none
  | (k, v) :: t, k' => if k = k' then some v else alookup t k'

/-- In-place assignment: replace the value stored under key `k` by `v`. -/
def aassign {α : Type} : List (Nat × α) → Nat → α → List (Nat × α)
  | [], _, _ => []
  | (k1, v1) :: t, k, v =>
    if k1 = k then (k, v) :: aassign t k v else (k1, v1) :: aassign t k v

/-- `m[k] = v` on a `Hash`/`Map`: assign in place when the key is present,
    otherwise add a new entry. -/
def ainsert {α : Type} (l : List (Nat × α)) (k : Nat) (v : α) : List (Nat × α) :=
  if (alookup l k).isSome then aassign l k v else l ++ [(k, v)]

/-- `m.remove(k)`: drop the entry stored under key `k`. -/
def aremove {α : Type} : List (Nat × α) → Nat → List (Nat × α)
  | [], _ => []
  | (k1, v) :: t, k => if k1 = k then aremove t k else (k1, v) :: aremove t k

theorem alookup_cons {α : Type} (k : Nat) (v : α) (t : List (Nat × α)) (k' : Nat) :
    alookup ((k, v) :: t) k' = if k = k' then some v else alookup t k' := rfl

theorem alookup_append_right {α : Type} {l : List (Nat × α)} {k : Nat}
    (h : alookup l k = none) (l2 : List (Nat × α)) :
    alookup (l ++ l2) k = alookup l2 k := by
  induction l with
  | nil => rfl
  | cons p t ih =>
    obtain ⟨k1, v1⟩ := p
    rw [alookup_cons] at h
    by_cases hk : k1 = k
    · rw [if_pos hk] at h; cases h
    · rw [List.cons_append, alookup_cons, if_neg hk]
      rw [if_neg hk] at h
      exact ih h

theorem alookup_append_left {α : Type} {l : List (Nat × α)} {k : Nat} {v : α}
    (h : alookup l k = some v) (l2 : List (Nat × α)) :
    alookup (l ++ l2) k = some v := by
  induction l with
  | nil => cases h
  | cons p t ih =>
    obtain ⟨k1, v1⟩ := p
    rw [alookup_cons] at h
    by_cases hk : k1 = k
    · rw [List.cons_append, alookup_cons, if_pos hk]
      rw [if_pos hk] at h
      exact h
    · rw [List.cons_append, alookup_cons, if_neg hk]
      rw [if_neg hk] at h
      exact ih h

theorem alookup_aassign {α : Type} (l : List (Nat × α)) (k : Nat) (v : α) (k' : Nat) :
    alookup (aassign l k v) k' =
      if k = k' then (alookup l k').map (fun _ => v) else alookup l k' := by
  induction l with
  | nil =>
    by_cases h : k = k' <;> simp [aassign, alookup, h]
  | cons p t ih =>
    obtain ⟨k1, v1⟩ := p
    by_cases h1 : k1 = k
    · subst h1
      by_cases h2 : k1 = k'
      · subst h2; simp [aassign, alookup]
      · simpa [aassign, alookup, h2] using ih
    · by_cases h2 : k1 = k'
      · subst h2
        have hkk : ¬ k = k1 := fun h => h1 h.symm
        simp [aassign, alookup, h1, hkk]
      · simpa [aassign, alookup, h1, h2] using ih

theorem alookup_ainsert_self {α : Type} (l : List (Nat × α)) (k : Nat) (v : α) :
    alookup (ainsert l k v) k = some v := by
  unfold ainsert
  by_cases h : (alookup l k).isSome
  · rw [if_pos h, alookup_aassign, if_pos rfl]
    obtain ⟨u, hu⟩ := Option.isSome_iff_exists.mp h
    rw [hu]; rfl
  · rw [if_neg h]
    have hnone : alookup l k = none := by
      cases hl : alookup l k with
      | none => rfl
      | some u => rw [hl] at h; simp at h
    rw [alookup_append_right hnone, alookup_cons, if_pos rfl]

theorem alookup_ainsert_ne {α : Type} (l : List (Nat × α)) {k k' : Nat} (v : α)
    (h : k ≠ k') : alookup (ainsert l k v) k' = alookup l k' := by
  unfold ainsert
  by_cases hs : (alookup l k).isSome
  · rw [if_pos hs, alookup_aassign, if_neg h]
  · rw [if_neg hs]
    cases hl : alookup l k' with
    | none => rw [alookup_append_right hl, alookup_cons, if_neg h]; rfl
    | some u => rw [alookup_append_left hl]

theorem alookup_aremove_self {α : Type} (l : List (Nat × α)) (k : Nat) :
    alookup (aremove l k) k = none := by
  induction l with
  | nil => rfl
  | cons p t ih =>
    obtain ⟨k1, v1⟩ := p
    by_cases hk : k1 = k
    · simpa [aremove, hk] using ih
    · simpa [aremove, alookup, hk] using ih

theorem alookup_aremove_ne {α : Type} (l : List (Nat × α)) {k k' : Nat}
    (h : k' ≠ k) : alookup (aremove l k) k' = alookup l k' := by
  induction l with
  | nil => rfl
  | cons p t ih =>
    obtain ⟨k1, v1⟩ := p
    by_cases hk : k1 = k
    · subst hk
      have hne : ¬ k1 = k' := fun hh => h hh.symm
      simpa [aremove, alookup, hne] using ih
    · by_cases h2 : k1 = k'
      · subst h2
        simp [aremove, alookup, hk]
      · simpa [aremove, alookup, hk, h2] using ih

theorem alookup_isSome_of_mem {α : Type} {l : List (Nat × α)} {p : Nat × α}
    (hm : p ∈ l) : (alookup l p.1).isSome := by
  induction l with
  | nil => cases hm
  | cons q t ih =>
    obtain ⟨k1, v1⟩ := q
    rcases List.mem_cons.mp hm with h | h
    · subst h; simp [alookup_cons]
    · rw [alookup_cons]
      by_cases hk : k1 = p.1
      · simp [hk]
      · rw [if_neg hk]; exact ih h

theorem aassign_of_none {α : Type} {l : List (Nat × α)} {k : Nat}
    (h : alookup l k = none) (v : α) : aassign l k v = l := by
  induction l with
  | nil => rfl
  | cons p t ih =>
    obtain ⟨k1, v1⟩ := p
    rw [alookup_cons] at h
    by_cases hk : k1 = k
    · rw [if_pos hk] at h; cases h
    · rw [if_neg hk] at h
      simp [aassign, hk, ih h]

theorem aassign_append {α : Type} (l1 l2 : List (Nat × α)) (k : Nat) (v : α) :
    aassign (l1 ++ l2) k v = aassign l1 k v ++ aassign l2 k v := by
  induction l1 with
  | nil => rfl
  | cons p t ih =>
    obtain ⟨k1, v1⟩ := p
    by_cases hk : k1 = k <;> simp [aassign, hk, ih]

theorem aassign_idem {α : Type} (l : List (Nat × α)) (k : Nat) (v : α) :
    aassign (aassign l k v) k v = aassign l k v := by
  induction l with
  | nil => rfl
  | cons p t ih =>
    obtain ⟨k1, v1⟩ := p
    by_cases hk : k1 = k <;> simp [aassign, hk, ih]

theorem ainsert_idem {α : Type} (l : List (Nat × α)) (k : Nat) (v : α) :
    ainsert (ainsert l k v) k v = ainsert l k v := by
  have h1 : (alookup (ainsert l k v) k).isSome := by
    rw [alookup_ainsert_self]; rfl
  conv_lhs => rw [ainsert]
  rw [if_pos h1]
  unfold ainsert
  by_cases hs : (alookup l k).isSome
  · rw [if_pos hs, aassign_idem]
  · have hnone : alookup l k = none := by
      cases hl : alookup l k with
      | none => rfl
      | some u => rw [hl] at hs; simp at hs
    rw [if_neg hs, aassign_append, aassign_of_none hnone]
    simp [aassign]

theorem alookup_foldl_aremove {α : Type} (ids : List Nat) (m : List (Nat × α)) (f : Nat) :
    alookup (ids.foldl (fun acc i => aremove acc i) m) f =
      if f ∈ ids then none else alookup m f := by
  induction ids generalizing m with
  | nil => simp
  | cons i t ih =>
    rw [List.foldl_cons, ih]
    by_cases hf : f = i
    · subst hf
      simp [alookup_aremove_self]
    · by_cases hft : f ∈ t
      · simp [hft]
      · have : ¬ f ∈ i :: t := by
          intro hc
          rcases List.mem_cons.mp hc with h | h
          · exact hf h
          · exact hft h
        simp only [hft, if_false, this, if_false]
        exact alookup_aremove_ne m hf

/- ------------------------------------------------------------------
   Visited files and active jobs: `Project::visitFile` (Project.h:390),
   `Project::releaseFileIds` (Project.h:408), `Project::isActiveJob`
   (Project.h:178).  `mVisitedFiles : Hash<uint32_t, Path>` maps file ids
   to paths (Path modelled as String); `mActiveJobs` is keyed by the
   64-bit source key, and only a job's `visited` set is relevant here.
   ------------------------------------------------------------------ -/

structure ProjectState where
  visitedFiles : List (Nat × String)
  activeJobs : List (Nat × List Nat)
deriving DecidableEq, Repr

/-- `job->visited.insert(fileId)` through `mActiveJobs[key]`. -/
def jobAddVisited (jobs : List (Nat × List Nat)) (key fileId : Nat) :
    List (Nat × List Nat) :=
  let vs := (alookup jobs key).getD []
  ainsert jobs key (if fileId ∈ vs then vs else vs ++ [fileId])

/-- `Project::visitFile(visitFileId, path, key)`: `mVisitedFiles[visitFileId]`
    default-constructs an empty Path when the id is absent; when the stored
    path is empty the path is recorded, the id is attributed to the active
    job for a nonzero `key`, and the call returns true; otherwise false. -/
def visitFile (s : ProjectState) (visitFileId : Nat) (path : String) (key : Nat) :
    ProjectState × Bool :=
  let p := (alookup s.visitedFiles visitFileId).getD ""
  if p = "" then
    let s1 : ProjectState :=
      { s with visitedFiles := ainsert s.visitedFiles visitFileId path }
    if key ≠ 0 then
      ({ s1 with activeJobs := jobAddVisited s1.activeJobs key visitFileId }, true)
    else
      (s1, true)
  else
    (s, false)

/-- `Project::releaseFileIds(fileIds)`: remove each id from `mVisitedFiles`. -/
def releaseFileIds (s : ProjectState) (fileIds : List Nat) : ProjectState :=
  if fileIds.isEmpty then s
  else { s with visitedFiles := fileIds.foldl (fun m f => aremove m f) s.visitedFiles }

/-- `Project::isActiveJob(key) { return !key || mActiveJobs.contains(key); }`. -/
def isActiveJob (s : ProjectState) (key : Nat) : Bool :=
  key == 0 || (alookup s.activeJobs key).isSome

/-- Claim C4 fails as stated: `visitFile` keys its first-visit test on the
    recorded path being empty, not on the id being absent from
    `mVisitedFiles`.  After `visitFile(1, "", 0)` the id 1 is present in
    the visited-files table (with an empty path), yet a second
    `visitFile(1, "p", 0)` still returns true. -/
theorem visitFile_true_though_present :
    (alookup (visitFile ⟨[], []⟩ 1 "" 0).1.visitedFiles 1).isSome = true ∧
      (visitFile (visitFile ⟨[], []⟩ 1 "" 0).1 1 "p" 0).2 = true := by
  constructor <;> rfl

/-- Claim C4 (amended): `visitFile(fileId, path, key)` returns true and
    records `path` exactly when `fileId` is absent from VisitedFiles or is
    recorded with an empty path; on a true return with nonzero `key` the id
    is added to that job's visited set; on a false return the state is
    unchanged; visits of other ids leave the entry alone, so with nonempty
    paths it returns true at most once per id until the id is released. -/
theorem visitFile_spec (s : ProjectState) (f : Nat) (p : String) (k : Nat) :
    ((visitFile s f p k).2 = true ↔
      (alookup s.visitedFiles f = none ∨ alookup s.visitedFiles f = some "")) ∧
    ((visitFile s f p k).2 = true →
      alookup (visitFile s f p k).1.visitedFiles f = some p) ∧
    ((visitFile s f p k).2 = false → visitFile s f p k = (s, false)) ∧
    (k ≠ 0 → (visitFile s f p k).2 = true →
      f ∈ ((alookup (visitFile s f p k).1.activeJobs k).getD [])) ∧
    (p ≠ "" → (visitFile s f p k).2 = true →
      ∀ p' k', (visitFile (visitFile s f p k).1 f p' k').2 = false) ∧
    (∀ g q j, g ≠ f →
      alookup (visitFile s g q j).1.visitedFiles f = alookup s.visitedFiles f) := by
  have hempty : ((alookup s.visitedFiles f).getD "" = "") ↔
      (alookup s.visitedFiles f = none ∨ alookup s.visitedFiles f = some "") := by
    cases h : alookup s.visitedFiles f with
    | none => simp
    | some u => simp
  refine ⟨?_, ?_, ?_, ?_, ?_, ?_⟩
  · unfold visitFile
    by_cases hc : (alookup s.visitedFiles f).getD "" = ""
    · rw [if_pos hc]
      by_cases hk : k ≠ 0 <;> simp [hk, hempty.mp hc]
    · rw [if_neg hc]
      simp only [Bool.false_eq_true, false_iff]
      intro hor
      exact hc (hempty.mpr hor)
  · intro ht
    unfold visitFile at ht ⊢
    by_cases hc : (alookup s.visitedFiles f).getD "" = ""
    · rw [if_pos hc]
      by_cases hk : k ≠ 0 <;> simp [hk, alookup_ainsert_self]
    · rw [if_neg hc] at ht
      cases ht
  · intro hf
    unfold visitFile at hf ⊢
    by_cases hc : (alookup s.visitedFiles f).getD "" = ""
    · rw [if_pos hc] at hf
      by_cases hk : k ≠ 0 <;> simp [hk] at hf
    · rw [if_neg hc]
  · intro hk ht
    unfold visitFile at ht ⊢
    by_cases hc : (alookup s.visitedFiles f).getD "" = ""
    · rw [if_pos hc, if_pos hk]
      show f ∈ (alookup (jobAddVisited s.activeJobs k f) k).getD []
      show f ∈ (alookup (ainsert s.activeJobs k
        (if f ∈ (alookup s.activeJobs k).getD [] then (alookup s.activeJobs k).getD []
         else (alookup s.activeJobs k).getD [] ++ [f])) k).getD []
      rw [alookup_ainsert_self]
      by_cases hm : f ∈ (alookup s.activeJobs k).getD []
      · rw [if_pos hm]
        exact hm
      · rw [if_neg hm]
        exact List.mem_append_right _ (List.mem_singleton.mpr rfl)
    · rw [if_neg hc] at ht
      cases ht
  · intro hp ht p' k'
    have hlook : alookup (visitFile s f p k).1.visitedFiles f = some p := by
      unfold visitFile at ht ⊢
      by_cases hc : (alookup s.visitedFiles f).getD "" = ""
      · rw [if_pos hc]
        by_cases hk : k ≠ 0 <;> simp [hk, alookup_ainsert_self]
      · rw [if_neg hc] at ht
        cases ht
    generalize hset : (visitFile s f p k).1 = s2 at hlook ⊢
    unfold visitFile
    rw [hlook]
    simp [hp]
  · intro g q j hg
    unfold visitFile
    by_cases hc : (alookup s.visitedFiles g).getD "" = ""
    · rw [if_pos hc]
      by_cases hk : j ≠ 0
      · rw [if_pos hk]
        exact alookup_ainsert_ne s.visitedFiles q hg
      · rw [if_neg hk]
        exact alookup_ainsert_ne s.visitedFiles q hg
    · rw [if_neg hc]

/-- Witness for the amended claim C4 at concrete inputs. -/
theorem visitFile_spec_witness :
    (visitFile (⟨[], [(5, [])]⟩ : ProjectState) 1 "p" 5).2 = true ∧
    alookup (visitFile (⟨[], [(5, [])]⟩ : ProjectState) 1 "p" 5).1.visitedFiles 1 =
      some "p" ∧
    (1 : Nat) ∈ ((alookup
      (visitFile (⟨[], [(5, [])]⟩ : ProjectState) 1 "p" 5).1.activeJobs 5).getD []) ∧
    (visitFile (visitFile (⟨[], [(5, [])]⟩ : ProjectState) 1 "p" 5).1 1 "q" 0).2 =
      false ∧
    alookup (visitFile (⟨[], [(5, [])]⟩ : ProjectState) 2 "q" 0).1.visitedFiles 1 =
      alookup (⟨[], [(5, [])]⟩ : ProjectState).visitedFiles 1 := by
  have h := visitFile_spec (⟨[], [(5, [])]⟩ : ProjectState) 1 "p" 5
  refine ⟨(h.1).mpr (Or.inl rfl), h.2.1 ((h.1).mpr (Or.inl rfl)), ?_, ?_, ?_⟩
  · exact h.2.2.2.1 (by decide) ((h.1).mpr (Or.inl rfl))
  · exact h.2.2.2.2.1 (by decide) ((h.1).mpr (Or.inl rfl)) "q" 0
  · exact h.2.2.2.2.2 2 "q" 0 (by decide)

/-- Claim C9: `visitFile` with source key 0 on an unvisited id records the
    path and returns true but touches no job's visited set; a nonzero key
    with an active job updates exactly that job's visited set. -/
theorem visitFile_zero_key (s : ProjectState) (f : Nat) (p : String)
    (h : alookup s.visitedFiles f = none) :
    visitFile s f p 0 = ({ s with visitedFiles := ainsert s.visitedFiles f p }, true) ∧
    (visitFile s f p 0).1.activeJobs = s.activeJobs ∧
    (∀ k, k ≠ 0 →
      (visitFile s f p k).1.activeJobs = jobAddVisited s.activeJobs k f) := by
  refine ⟨?_, ?_, ?_⟩
  · unfold visitFile
    simp [h]
  · unfold visitFile
    simp [h]
  · intro k hk
    unfold visitFile
    simp [h, hk]

/-- Witness for claim C9 at concrete inputs. -/
theorem visitFile_zero_key_witness :
    visitFile (⟨[(2, "b")], [(5, [])]⟩ : ProjectState) 1 "p" 0 =
      ({ (⟨[(2, "b")], [(5, [])]⟩ : ProjectState) with
          visitedFiles := ainsert [(2, "b")] 1 "p" }, true) ∧
    (visitFile (⟨[(2, "b")], [(5, [])]⟩ : ProjectState) 1 "p" 0).1.activeJobs =
      [(5, [])] ∧
    (visitFile (⟨[(2, "b")], [(5, [])]⟩ : ProjectState) 1 "p" 5).1.activeJobs =
      jobAddVisited [(5, [])] 5 1 := by
  have h := visitFile_zero_key (⟨[(2, "b")], [(5, [])]⟩ : ProjectState) 1 "p" rfl
  exact ⟨h.1, h.2.1, h.2.2 5 (by decide)⟩

/-- Claim C6: `releaseFileIds(set)` removes exactly the ids in the set from
    VisitedFiles: released ids are absent afterwards, all other entries are
    unchanged, the empty set is a no-op, and the active-jobs table is
    untouched. -/
theorem releaseFileIds_spec (s : ProjectState) (ids : List Nat) :
    (∀ f, f ∈ ids → alookup (releaseFileIds s ids).visitedFiles f = none) ∧
    (∀ f, f ∉ ids →
      alookup (releaseFileIds s ids).visitedFiles f = alookup s.visitedFiles f) ∧
    releaseFileIds s [] = s ∧
    (releaseFileIds s ids).activeJobs = s.activeJobs := by
  refine ⟨?_, ?_, rfl, ?_⟩
  · intro f hf
    unfold releaseFileIds
    cases ids with
    | nil => cases hf
    | cons i t =>
      simp only [List.isEmpty_cons, if_false, Bool.false_eq_true]
      rw [alookup_foldl_aremove, if_pos hf]
  · intro f hf
    unfold releaseFileIds
    cases ids with
    | nil => rfl
    | cons i t =>
      simp only [List.isEmpty_cons, if_false, Bool.false_eq_true]
      rw [alookup_foldl_aremove, if_neg hf]
  · unfold releaseFileIds
    cases ids with
    | nil => rfl
    | cons i t => rfl

/-- Witness for claim C6 at concrete inputs. -/
theorem releaseFileIds_spec_witness :
    alookup (releaseFileIds (⟨[(1, "a"), (2, "b")], [(9, [1])]⟩ : ProjectState)
      [1]).visitedFiles 1 = none ∧
    alookup (releaseFileIds (⟨[(1, "a"), (2, "b")], [(9, [1])]⟩ : ProjectState)
      [1]).visitedFiles 2 =
      alookup (⟨[(1, "a"), (2, "b")], [(9, [1])]⟩ : ProjectState).visitedFiles 2 ∧
    releaseFileIds (⟨[(1, "a"), (2, "b")], [(9, [1])]⟩ : ProjectState) [] =
      (⟨[(1, "a"), (2, "b")], [(9, [1])]⟩ : ProjectState) := by
  have h := releaseFileIds_spec (⟨[(1, "a"), (2, "b")], [(9, [1])]⟩ : ProjectState) [1]
  exact ⟨h.1 1 (by decide), h.2.1 2 (by decide), h.2.2.1⟩

/-- Claim C10: `isActiveJob(key)` is true exactly when `key` is 0 or `key`
    is present in the active-jobs table; in particular `isActiveJob 0` is
    true in every state, also with no active job. -/
theorem isActiveJob_spec :
    (∀ (s : ProjectState) (key : Nat),
      isActiveJob s key = true ↔
        (key = 0 ∨ (alookup s.activeJobs key).isSome)) ∧
    (∀ s : ProjectState, isActiveJob s 0 = true) ∧
    isActiveJob ⟨[], []⟩ 0 = true := by
  refine ⟨?_, ?_, rfl⟩
  · intro s key
    unfold isActiveJob
    rw [Bool.or_eq_true, beq_iff_eq]
  · intro s
    unfold isActiveJob
    rfl

/- ------------------------------------------------------------------
   File-map naming: `Project::FileMapType` (Project.h:74),
   `Project::fileMapName` (Project.h:80), `Project::sourceFilePath`
   (Project.h:419, `String::format("%s%d/%s", base, fileId, type)`), and
   the path computed at the top of `FileMapScope::openFileMap`
   (Project.h:293).  `mSourceFilePathBase` is passed in as `base`.
   ------------------------------------------------------------------ -/

inductive FileMapType where
  | Symbols
  | SymbolNames
  | Targets
  | Usrs
deriving DecidableEq, Repr

def fileMapName : FileMapType → String
  | .Symbols => "symbols"
  | .SymbolNames => "symnames"
  | .Targets => "targets"
  | .Usrs => "usrs"

def sourceFilePath (base : String) (fileId : Nat) (type : String) : String :=
  base ++ toString fileId ++ "/" ++ type

/-- The path `openFileMap` opens:
    `project->sourceFilePath(fileId, Project::fileMapName(type))`. -/
def openFileMapPath (base : String) (type : FileMapType) (fileId : Nat) : String :=
  sourceFilePath base fileId (fileMapName type)

/-- Modelled from the spec: the on-disk layout `"<base>/<fileId>/<kind-short-name>"`
    with short names `symbols | symnames | targets | usrs` (spec §4.2); stated
    directly from the spec's words for comparison with the code's path. -/
def specFileMapPath (base : String) (fileId : Nat) : FileMapType → String
  | .Symbols => base ++ "/" ++ toString fileId ++ "/" ++ "symbols"
  | .SymbolNames => base ++ "/" ++ toString fileId ++ "/" ++ "symnames"
  | .Targets => base ++ "/" ++ toString fileId ++ "/" ++ "targets"
  | .Usrs => base ++ "/" ++ toString fileId ++ "/" ++ "usrs"

/-- Claim C7: for every file id and map kind, the path used to open the file
    map is `"<base>/<fileId>/<kind-short-name>"` with the short names
    `symbols`, `symnames`, `targets` and `usrs` (the code's
    `mSourceFilePathBase` carries the trailing separator, so the code base is
    `b ++ "/"`). -/
theorem fileMapPath_spec (b : String) (fileId : Nat) (t : FileMapType) :
    openFileMapPath (b ++ "/") t fileId = specFileMapPath b fileId t ∧
    fileMapName .Symbols = "symbols" ∧ fileMapName .SymbolNames = "symnames" ∧
    fileMapName .Targets = "targets" ∧ fileMapName .Usrs = "usrs" := by
  refine ⟨?_, rfl, rfl, rfl, rfl⟩
  cases t <;> simp [openFileMapPath, sourceFilePath, specFileMapPath, fileMapName,
    String.append_assoc]

/- ------------------------------------------------------------------
   Location-based query overloads (Project.h:144-156).  The Symbol-based
   implementations and `RTags::bestTarget` live in other translation
   units; the header's inline overloads delegate to them through
   `findSymbol(location)`.  Locations and symbols are opaque data here. -/

structure ProjectQueries where
  findSymbolAt : Nat → Nat
  findTargetsOfSymbol : Nat → List Nat
  findAllReferencesOfSymbol : Nat → List Nat
  findCallersOfSymbol : Nat → List Nat
  findVirtualsOfSymbol : Nat → List Nat
  bestTarget : List Nat → Nat

/-- `findTargets(const Location &location)` (Project.h:145). -/
def findTargetsAt (p : ProjectQueries) (loc : Nat) : List Nat :=
  p.findTargetsOfSymbol (p.findSymbolAt loc)

/-- `findTarget(const Location &location)` (Project.h:147). -/
def findTargetAt (p : ProjectQueries) (loc : Nat) : Nat :=
  p.bestTarget (findTargetsAt p loc)

/-- `findAllReferences(const Location &location)` (Project.h:149). -/
def findAllReferencesAt (p : ProjectQueries) (loc : Nat) : List Nat :=
  p.findAllReferencesOfSymbol (p.findSymbolAt loc)

/-- `findCallers(const Location &location)` (Project.h:151). -/
def findCallersAt (p : ProjectQueries) (loc : Nat) : List Nat :=
  p.findCallersOfSymbol (p.findSymbolAt loc)

/-- `findVirtuals(const Location &location)` (Project.h:153). -/
def findVirtualsAt (p : ProjectQueries) (loc : Nat) : List Nat :=
  p.findVirtualsOfSymbol (p.findSymbolAt loc)

/-- Claim C8: every Location-based query overload equals the corresponding
    Symbol-based overload applied to `findSymbol(location)`, and
    `findTarget(loc)` is `bestTarget(findTargets(loc))`. -/
theorem locationOverloads_delegate (p : ProjectQueries) (loc : Nat) :
    findTargetsAt p loc = p.findTargetsOfSymbol (p.findSymbolAt loc) ∧
    findAllReferencesAt p loc = p.findAllReferencesOfSymbol (p.findSymbolAt loc) ∧
    findCallersAt p loc = p.findCallersOfSymbol (p.findSymbolAt loc) ∧
    findVirtualsAt p loc = p.findVirtualsOfSymbol (p.findSymbolAt loc) ∧
    findTargetAt p loc = p.bestTarget (findTargetsAt p loc) :=
  ⟨rfl, rfl, rfl, rfl, rfl⟩

/- ------------------------------------------------------------------
   `DependencyNode` (Project.h:41-57).  Nodes live on the heap and refer
   to each other by pointer; the heap is modelled as an association list
   from node ids (pointers) to nodes.  `includes` and `dependents` are
   `Dependencies = Map<uint32_t, DependencyNode*>`, modelled as
   association lists from file id to node id.  `include` carries two
   asserts; a call whose assert would fire is modelled as `none`.
   ------------------------------------------------------------------ -/

structure DepNode where
  fileId : Nat
  includes : List (Nat × Nat)
  dependents : List (Nat × Nat)
deriving DecidableEq, Repr

abbrev DepHeap := List (Nat × DepNode)

/-- Apply `fn` to the node stored at id `i`. -/
def updNode : DepHeap → Nat → (DepNode → DepNode) → DepHeap
  | [], _, _ => []
  | (k, n) :: t, i, fn =>
    if k = i then (k, fn n) :: updNode t i fn else (k, n) :: updNode t i fn

/-- The two asserts of `DependencyNode::include`:
    `assert(!includes.contains(dependee->fileId) || includes.value(dependee->fileId) == dependee)`
    and the mirror assert on `dependee->dependents`. -/
def includeAssertsOk (na nb : DepNode) (a b : Nat) : Bool :=
  (match alookup na.includes nb.fileId with
   | none => true
   | some v => v == b) &&
  (match alookup nb.dependents na.fileId with
   | none => true
   | some v => v == a)

/-- `DependencyNode::include(dependee)` on the heap: node `a` includes node
    `b`.  `includes[dependee->fileId] = dependee` and
    `dependee->dependents[fileId] = this`; `none` when a pointer is invalid
    or an assert fires. -/
def nodeInclude (g : DepHeap) (a b : Nat) : Option DepHeap :=
  match alookup g a, alookup g b with
  | some na, some nb =>
    if includeAssertsOk na nb a b then
      some (updNode
        (updNode g a (fun n => { n with includes := ainsert n.includes nb.fileId b }))
        b (fun n => { n with dependents := ainsert n.dependents na.fileId a }))
    else
      none
  | _, _ => none

/-- The bidirectional invariant: `B ∈ A.includes ⇔ A ∈ B.dependents`,
    where membership keys on the partner's file id and stores the partner's
    pointer. -/
def BiInv (g : DepHeap) : Prop :=
  ∀ i j ni nj, alookup g i = some ni → alookup g j = some nj →
    (alookup ni.includes nj.fileId = some j ↔ alookup nj.dependents ni.fileId = some i)

theorem alookup_updNode (g : DepHeap) (i : Nat) (fn : DepNode → DepNode) (j : Nat) :
    alookup (updNode g i fn) j =
      if i = j then (alookup g j).map fn else alookup g j := by
  induction g with
  | nil => by_cases h : i = j <;> simp [updNode, alookup, h]
  | cons p t ih =>
    obtain ⟨k, n⟩ := p
    by_cases hk : k = i
    · subst hk
      by_cases hj : k = j
      · subst hj; simp [updNode, alookup, ih]
      · simpa [updNode, alookup, hj] using ih
    · by_cases hj : k = j
      · subst hj
        have hij : ¬ i = k := fun h => hk h.symm
        simp [updNode, alookup, hk, hij]
      · simpa [updNode, alookup, hk, hj] using ih

theorem includeAssertsOk_spec {na nb : DepNode} {a b : Nat}
    (h : includeAssertsOk na nb a b = true) :
    (∀ c, alookup na.includes nb.fileId = some c → c = b) ∧
    (∀ c, alookup nb.dependents na.fileId = some c → c = a) := by
  unfold includeAssertsOk at h
  rw [Bool.and_eq_true] at h
  obtain ⟨h1, h2⟩ := h
  constructor
  · intro c hc
    rw [hc] at h1
    exact beq_iff_eq.mp h1
  · intro c hc
    rw [hc] at h2
    exact beq_iff_eq.mp h2

theorem nodeInclude_of_ok {g : DepHeap} {a b : Nat} {na nb : DepNode}
    (ha : alookup g a = some na) (hb : alookup g b = some nb)
    (hok : includeAssertsOk na nb a b = true) :
    nodeInclude g a b = some (updNode
      (updNode g a (fun n => { n with includes := ainsert n.includes nb.fileId b }))
      b (fun n => { n with dependents := ainsert n.dependents na.fileId a })) := by
  unfold nodeInclude
  rw [ha, hb]
  show (if includeAssertsOk na nb a b = true then
      some (updNode
        (updNode g a (fun n => { n with includes := ainsert n.includes nb.fileId b }))
        b (fun n => { n with dependents := ainsert n.dependents na.fileId a }))
    else none) = _
  rw [if_pos hok]

theorem nodeInclude_of_fail {g : DepHeap} {a b : Nat} {na nb : DepNode}
    (ha : alookup g a = some na) (hb : alookup g b = some nb)
    (hok : includeAssertsOk na nb a b = false) :
    nodeInclude g a b = none := by
  unfold nodeInclude
  rw [ha, hb]
  show (if includeAssertsOk na nb a b = true then
      some (updNode
        (updNode g a (fun n => { n with includes := ainsert n.includes nb.fileId b }))
        b (fun n => { n with dependents := ainsert n.dependents na.fileId a }))
    else none) = none
  rw [hok]
  rfl

theorem nodeInclude_eq_some {g : DepHeap} {a b : Nat} {g' : DepHeap}
    (h : nodeInclude g a b = some g') :
    ∃ na nb, alookup g a = some na ∧ alookup g b = some nb ∧
      includeAssertsOk na nb a b = true ∧
      g' = updNode
        (updNode g a (fun n => { n with includes := ainsert n.includes nb.fileId b }))
        b (fun n => { n with dependents := ainsert n.dependents na.fileId a }) := by
  cases ha : alookup g a with
  | none => unfold nodeInclude at h; rw [ha] at h; cases h
  | some na =>
    cases hb : alookup g b with
    | none => unfold nodeInclude at h; rw [ha, hb] at h; cases h
    | some nb =>
      by_cases hok : includeAssertsOk na nb a b = true
      · rw [nodeInclude_of_ok ha hb hok] at h
        exact ⟨na, nb, rfl, rfl, hok, (Option.some.inj h).symm⟩
      · rw [nodeInclude_of_fail ha hb (Bool.eq_false_iff.mpr hok)] at h
        cases h

theorem nodeInclude_lookup {g : DepHeap} {a b : Nat} {na nb : DepNode}
    (ha : alookup g a = some na) (hb : alookup g b = some nb) (x : Nat) (nx' : DepNode)
    (hx : alookup (updNode
        (updNode g a (fun n => { n with includes := ainsert n.includes nb.fileId b }))
        b (fun n => { n with dependents := ainsert n.dependents na.fileId a })) x =
      some nx') :
    ∃ nx, alookup g x = some nx ∧
      nx'.fileId = nx.fileId ∧
      nx'.includes = (if x = a then ainsert nx.includes nb.fileId b else nx.includes) ∧
      nx'.dependents =
        (if x = b then ainsert nx.dependents na.fileId a else nx.dependents) := by
  rw [alookup_updNode, alookup_updNode] at hx
  by_cases hxb : b = x <;> by_cases hxa : a = x
  · rw [if_pos hxb, if_pos hxa] at hx
    have hax2 : alookup g x = some na := hxa ▸ ha
    rw [hax2] at hx
    have hY := (Option.some.inj hx).symm
    refine ⟨na, hax2, ?_, ?_, ?_⟩
    · rw [hY]
    · rw [hY, if_pos hxa.symm]
    · rw [hY, if_pos hxb.symm]
  · rw [if_pos hxb, if_neg hxa] at hx
    have hbx2 : alookup g x = some nb := hxb ▸ hb
    rw [hbx2] at hx
    have hY := (Option.some.inj hx).symm
    refine ⟨nb, hbx2, ?_, ?_, ?_⟩
    · rw [hY]
    · rw [hY, if_neg (fun hh => hxa hh.symm)]
    · rw [hY, if_pos hxb.symm]
  · rw [if_neg hxb, if_pos hxa] at hx
    have hax2 : alookup g x = some na := hxa ▸ ha
    rw [hax2] at hx
    have hY := (Option.some.inj hx).symm
    refine ⟨na, hax2, ?_, ?_, ?_⟩
    · rw [hY]
    · rw [hY, if_pos hxa.symm]
    · rw [hY, if_neg (fun hh => hxb hh.symm)]
  · rw [if_neg hxb, if_neg hxa] at hx
    refine ⟨nx', hx, rfl, ?_, ?_⟩
    · rw [if_neg (fun hh => hxa hh.symm)]
    · rw [if_neg (fun hh => hxb hh.symm)]

/-- Claim C5: `DependencyNode::include` establishes both directions of a
    link, is idempotent (a second identical call succeeds and changes no
    node), preserves the bidirectional invariant
    `B ∈ A.includes ⇔ A ∈ B.dependents`, and asserts when a link already
    exists under the same file id with a different partner node. -/
theorem dependencyNode_include_spec :
    (∀ (g : DepHeap) (a b : Nat) (g' : DepHeap) (na nb na' nb' : DepNode),
      nodeInclude g a b = some g' →
      alookup g a = some na → alookup g b = some nb →
      alookup g' a = some na' → alookup g' b = some nb' →
      alookup na'.includes nb.fileId = some b ∧
        alookup nb'.dependents na.fileId = some a) ∧
    (∀ (g : DepHeap) (a b : Nat) (g' : DepHeap),
      nodeInclude g a b = some g' → (nodeInclude g' a b).isSome) ∧
    (∀ (g : DepHeap) (a b : Nat) (g' g'' : DepHeap) (x : Nat),
      nodeInclude g a b = some g' → nodeInclude g' a b = some g'' →
      alookup g'' x = alookup g' x) ∧
    (∀ (g : DepHeap) (a b : Nat) (g' : DepHeap),
      BiInv g → nodeInclude g a b = some g' → BiInv g') ∧
    (∀ (g : DepHeap) (a b : Nat) (na nb : DepNode) (c : Nat),
      alookup g a = some na → alookup g b = some nb →
      alookup na.includes nb.fileId = some c → c ≠ b →
      nodeInclude g a b = none) := by
  have key : ∀ (g : DepHeap) (a b : Nat) (g' : DepHeap),
      nodeInclude g a b = some g' →
      ∃ na nb na' nb', alookup g a = some na ∧ alookup g b = some nb ∧
        alookup g' a = some na' ∧ alookup g' b = some nb' ∧
        na'.fileId = na.fileId ∧ nb'.fileId = nb.fileId ∧
        na'.includes = ainsert na.includes nb.fileId b ∧
        nb'.dependents = ainsert nb.dependents na.fileId a := by
    intro g a b g' h
    obtain ⟨na, nb, ha, hb, hok, rfl⟩ := nodeInclude_eq_some h
    by_cases hba : b = a
    · subst hba
      have hnab : na = nb := by rw [ha] at hb; exact Option.some.inj hb
      subst hnab
      have hx : alookup (updNode
          (updNode g b (fun n => { n with includes := ainsert n.includes na.fileId b }))
          b (fun n => { n with dependents := ainsert n.dependents na.fileId b })) b =
          some ({ { na with includes := ainsert na.includes na.fileId b } with
            dependents := ainsert na.dependents na.fileId b }) := by
        rw [alookup_updNode, if_pos rfl, alookup_updNode, if_pos rfl, ha]
        rfl
      exact ⟨na, na, _, _, ha, ha, hx, hx, rfl, rfl, rfl, rfl⟩
    · have hab : ¬ a = b := fun h => hba h.symm
      have hxa : alookup (updNode
          (updNode g a (fun n => { n with includes := ainsert n.includes nb.fileId b }))
          b (fun n => { n with dependents := ainsert n.dependents na.fileId a })) a =
          some ({ na with includes := ainsert na.includes nb.fileId b }) := by
        rw [alookup_updNode, if_neg hba, alookup_updNode, if_pos rfl, ha]
        rfl
      have hxb : alookup (updNode
          (updNode g a (fun n => { n with includes := ainsert n.includes nb.fileId b }))
          b (fun n => { n with dependents := ainsert n.dependents na.fileId a })) b =
          some ({ nb with dependents := ainsert nb.dependents na.fileId a }) := by
        rw [alookup_updNode, if_pos rfl, alookup_updNode, if_neg hab, hb]
        rfl
      exact ⟨na, nb, _, _, ha, hb, hxa, hxb, rfl, rfl, rfl, rfl⟩
  refine ⟨?_, ?_, ?_, ?_, ?_⟩
  · intro g a b g' na nb na' nb' h ha hb ha' hb'
    obtain ⟨ma, mb, ma', mb', ha2, hb2, ha2', hb2', _, _, hinc, hdep⟩ := key g a b g' h
    rw [ha] at ha2
    rw [hb] at hb2
    rw [ha'] at ha2'
    rw [hb'] at hb2'
    obtain rfl := Option.some.inj ha2
    obtain rfl := Option.some.inj hb2
    obtain rfl := Option.some.inj ha2'
    obtain rfl := Option.some.inj hb2'
    rw [hinc, hdep]
    exact ⟨alookup_ainsert_self _ _ _, alookup_ainsert_self _ _ _⟩
  · intro g a b g' h
    obtain ⟨na, nb, na', nb', _, _, ha', hb', hfa, hfb, hinc, hdep⟩ := key g a b g' h
    have hok : includeAssertsOk na' nb' a b = true := by
      unfold includeAssertsOk
      rw [hfb, hinc, alookup_ainsert_self]
      rw [hdep, hfa, alookup_ainsert_self]
      simp
    rw [nodeInclude_of_ok ha' hb' hok]
    rfl
  · intro g a b g' g'' x h1 h2
    obtain ⟨na, nb, na', nb', ha, hb, ha', hb', hfa, hfb, hinc, hdep⟩ := key g a b g' h1
    obtain ⟨ma, mb, hma, hmb, _, hg''⟩ := nodeInclude_eq_some h2
    rw [ha'] at hma
    rw [hb'] at hmb
    obtain rfl := Option.some.inj hma
    obtain rfl := Option.some.inj hmb
    subst hg''
    rw [alookup_updNode, alookup_updNode]
    by_cases hbx : b = x <;> by_cases hax : a = x
    · rw [if_pos hbx, if_pos hax]
      have hax' : alookup g' x = some na' := hax ▸ ha'
      have hbx' : alookup g' x = some nb' := hbx ▸ hb'
      rw [hax'] at hbx'
      obtain rfl := Option.some.inj hbx'
      rw [hax', Option.map_some', Option.map_some']
      have hs1 : ainsert na'.includes na'.fileId b = na'.includes := by
        rw [hfb, hinc, ainsert_idem]
      have hs2 : ainsert na'.dependents na'.fileId a = na'.dependents := by
        rw [hfa, hdep, ainsert_idem]
      show some ({ ({ na' with includes := ainsert na'.includes na'.fileId b }) with
        dependents := ainsert na'.dependents na'.fileId a }) = some na'
      rw [hs1, hs2]
    · rw [if_pos hbx, if_neg hax]
      have hbx' : alookup g' x = some nb' := hbx ▸ hb'
      rw [hbx', Option.map_some']
      have hs2 : ainsert nb'.dependents na'.fileId a = nb'.dependents := by
        rw [hfa, hdep, ainsert_idem]
      show some ({ nb' with dependents := ainsert nb'.dependents na'.fileId a }) =
        some nb'
      rw [hs2]
    · rw [if_neg hbx, if_pos hax]
      have hax' : alookup g' x = some na' := hax ▸ ha'
      rw [hax', Option.map_some']
      have hs1 : ainsert na'.includes nb'.fileId b = na'.includes := by
        rw [hfb, hinc, ainsert_idem]
      show some ({ na' with includes := ainsert na'.includes nb'.fileId b }) = some na'
      rw [hs1]
    · rw [if_neg hbx, if_neg hax]
  · intro g a b g' hbi h
    obtain ⟨na, nb, ha, hb, hok, rfl⟩ := nodeInclude_eq_some h
    obtain ⟨hA1, hA2⟩ := includeAssertsOk_spec hok
    intro i j ni' nj' hi' hj'
    obtain ⟨ni, hgi, hfi, hinc, _⟩ := nodeInclude_lookup ha hb i ni' hi'
    obtain ⟨nj, hgj, hfj, _, hjdep⟩ := nodeInclude_lookup ha hb j nj' hj'
    rw [hinc, hjdep, hfi, hfj]
    by_cases hia : i = a <;> by_cases hjb : j = b
    · subst hia
      subst hjb
      have hna : ni = na := Option.some.inj (hgi.symm.trans ha)
      have hnb : nj = nb := Option.some.inj (hgj.symm.trans hb)
      rw [if_pos rfl, if_pos rfl, hna, hnb, alookup_ainsert_self, alookup_ainsert_self]
      simp
    · subst hia
      have hna : ni = na := Option.some.inj (hgi.symm.trans ha)
      rw [if_pos rfl, if_neg hjb, hna]
      by_cases hfj2 : nb.fileId = nj.fileId
      · rw [← hfj2, alookup_ainsert_self]
        apply iff_of_false
        · intro heq
          exact hjb (Option.some.inj heq).symm
        · intro hr
          have hpre := (hbi i j na nj ha hgj).mpr hr
          rw [← hfj2] at hpre
          exact hjb (hA1 j hpre)
      · rw [alookup_ainsert_ne _ b hfj2]
        exact hbi i j na nj ha hgj
    · subst hjb
      have hnb : nj = nb := Option.some.inj (hgj.symm.trans hb)
      rw [if_neg hia, if_pos rfl, hnb]
      by_cases hfi2 : na.fileId = ni.fileId
      · rw [← hfi2, alookup_ainsert_self]
        apply iff_of_false
        · intro hl
          have hpre := (hbi i j ni nb hgi hb).mp hl
          rw [← hfi2] at hpre
          exact hia (hA2 i hpre)
        · intro heq
          exact hia (Option.some.inj heq).symm
      · rw [alookup_ainsert_ne _ a hfi2]
        exact hbi i j ni nb hgi hb
    · rw [if_neg hia, if_neg hjb]
      exact hbi i j ni nj hgi hgj
  · intro g a b na nb c ha hb hc hcb
    have hok : includeAssertsOk na nb a b = false := by
      unfold includeAssertsOk
      rw [hc]
      simp [hcb]
    exact nodeInclude_of_fail ha hb hok

/-- Witness for claim C5 on a concrete two-node heap: node 10 (file 5)
    includes node 20 (file 7). -/
theorem dependencyNode_include_witness :
    (alookup ([(7, 20)] : List (Nat × Nat)) 7 = some 20 ∧
      alookup ([(5, 10)] : List (Nat × Nat)) 5 = some 10) ∧
    (nodeInclude
      [(10, (⟨5, [(7, 20)], []⟩ : DepNode)), (20, ⟨7, [], [(5, 10)]⟩)] 10 20).isSome ∧
    alookup [(10, (⟨5, [(7, 20)], []⟩ : DepNode)), (20, ⟨7, [], [(5, 10)]⟩)] 10 =
      alookup [(10, (⟨5, [(7, 20)], []⟩ : DepNode)), (20, ⟨7, [], [(5, 10)]⟩)] 10 ∧
    BiInv [(10, (⟨5, [(7, 20)], []⟩ : DepNode)), (20, ⟨7, [], [(5, 10)]⟩)] ∧
    nodeInclude [(10, (⟨5, [(7, 99)], []⟩ : DepNode)), (20, ⟨7, [], []⟩)] 10 20 =
      none := by
  have h := dependencyNode_include_spec
  have hbi0 : BiInv [(10, (⟨5, [], []⟩ : DepNode)), (20, ⟨7, [], []⟩)] := by
    have hnode : ∀ x nx,
        alookup [(10, (⟨5, [], []⟩ : DepNode)), (20, ⟨7, [], []⟩)] x = some nx →
        nx.includes = [] ∧ nx.dependents = [] := by
      intro x nx hx
      simp only [alookup] at hx
      split_ifs at hx with h1 h2
      · cases hx
        exact ⟨rfl, rfl⟩
      · cases hx
        exact ⟨rfl, rfl⟩
    intro i j ni nj hi hj
    obtain ⟨hi1, _⟩ := hnode i ni hi
    obtain ⟨_, hj2⟩ := hnode j nj hj
    rw [hi1, hj2]
    simp [alookup]
  refine ⟨?_, ?_, ?_, ?_, ?_⟩
  · exact h.1 [(10, ⟨5, [], []⟩), (20, ⟨7, [], []⟩)] 10 20
      [(10, ⟨5, [(7, 20)], []⟩), (20, ⟨7, [], [(5, 10)]⟩)]
      ⟨5, [], []⟩ ⟨7, [], []⟩ ⟨5, [(7, 20)], []⟩ ⟨7, [], [(5, 10)]⟩
      (by decide) (by decide) (by decide) (by decide) (by decide)
  · exact h.2.1 [(10, ⟨5, [], []⟩), (20, ⟨7, [], []⟩)] 10 20
      [(10, ⟨5, [(7, 20)], []⟩), (20, ⟨7, [], [(5, 10)]⟩)] (by decide)
  · exact h.2.2.1 [(10, ⟨5, [], []⟩), (20, ⟨7, [], []⟩)] 10 20
      [(10, ⟨5, [(7, 20)], []⟩), (20, ⟨7, [], [(5, 10)]⟩)]
      [(10, ⟨5, [(7, 20)], []⟩), (20, ⟨7, [], [(5, 10)]⟩)] 10
      (by decide) (by decide)
  · exact h.2.2.2.1 [(10, ⟨5, [], []⟩), (20, ⟨7, [], []⟩)] 10 20
      [(10, ⟨5, [(7, 20)], []⟩), (20, ⟨7, [], [(5, 10)]⟩)] hbi0 (by decide)
  · exact h.2.2.2.2 [(10, ⟨5, [(7, 99)], []⟩), (20, ⟨7, [], []⟩)] 10 20
      ⟨5, [(7, 99)], []⟩ ⟨7, [], []⟩ 99 (by decide) (by decide) (by decide) (by decide)

/- ------------------------------------------------------------------
   `Project::FileMapScope` (Project.h:248-348): a per-query cache of
   opened FileMaps.  Four kind caches (`symbolNames`, `symbols`,
   `targets`, `usrs` — Hash from file id to the opened map, identified
   here by its allocation order `totalOpened`), an LRU `entryList`
   (EmbeddedLinkedList, head = least recent), an `entryMap` from LRUKey
   to its list entry (the entry is determined by its key, so the map is
   its key set), and the counters `openedFiles`, `totalOpened`, `max`.
   `loadFailedCalls` records the `project->loadFailed(fileId)` calls made
   on load failures.  The outcome of `FileMap::load` is an oracle
   argument `loadOk` to `openFileMap`.
   ------------------------------------------------------------------ -/

structure LRUKey where
  type : FileMapType
  fileId : Nat
deriving DecidableEq, Repr

structure FileMapScope where
  symbolNames : List (Nat × Nat)
  symbols : List (Nat × Nat)
  targets : List (Nat × Nat)
  usrs : List (Nat × Nat)
  openedFiles : Nat
  totalOpened : Nat
  max : Nat
  entryList : List LRUKey
  entryMap : List LRUKey
  loadFailedCalls : List Nat
deriving DecidableEq, Repr

/-- The kind cache a call site passes to `openFileMap` (Project.h:94-113)
    and the cache the eviction switch selects (Project.h:306-323). -/
def cacheOf (s : FileMapScope) : FileMapType → List (Nat × Nat)
  | .SymbolNames => s.symbolNames
  | .Symbols => s.symbols
  | .Targets => s.targets
  | .Usrs => s.usrs

def setCache (s : FileMapScope) : FileMapType → List (Nat × Nat) → FileMapScope
  | .SymbolNames, c => { s with symbolNames := c }
  | .Symbols, c => { s with symbols := c }
  | .Targets, c => { s with targets := c }
  | .Usrs, c => { s with usrs := c }

/-- `entryMap[key] = entry` on `Map<LRUKey, shared_ptr<LRUEntry>>`; the
    stored entry is determined by its key. -/
def minsert (m : List LRUKey) (k : LRUKey) : List LRUKey :=
  if k ∈ m then m else m ++ [k]

/-- `FileMapScope::poke` (Project.h:274): move the entry for `(t, f)` to
    the back of the LRU list. -/
def poke (s : FileMapScope) (t : FileMapType) (f : Nat) : FileMapScope :=
  { s with entryList := s.entryList.erase ⟨t, f⟩ ++ [⟨t, f⟩] }

/-- The cache-miss body of `openFileMap` on a successful load
    (Project.h:296-301): bump `totalOpened`, store the fresh map, append
    the LRU entry, register it in `entryMap`, bump `openedFiles`. -/
def insertEntry (s : FileMapScope) (t : FileMapType) (f : Nat) : FileMapScope :=
  let s1 := setCache s t (ainsert (cacheOf s t) f s.totalOpened)
  { s1 with totalOpened := s1.totalOpened + 1,
            entryList := s1.entryList ++ [⟨t, f⟩],
            entryMap := minsert s1.entryMap ⟨t, f⟩,
            openedFiles := s1.openedFiles + 1 }

/-- The eviction body (Project.h:302-325): take the LRU head, remove it
    from `entryMap` and from its kind cache, decrement `openedFiles`. -/
def evictHead (s : FileMapScope) : FileMapScope :=
  match s.entryList with
  | [] => s
  | e :: rest =>
    { setCache s e.type (aremove (cacheOf s e.type) e.fileId) with
      entryList := rest,
      entryMap := s.entryMap.filter (fun k => k ≠ e),
      openedFiles := s.openedFiles - 1 }

/-- `FileMapScope::openFileMap` (Project.h:283-337).  Returns the updated
    scope and the map (`none` models the reset shared pointer after a
    load failure). -/
def openFileMap (s : FileMapScope) (t : FileMapType) (f : Nat) (loadOk : Bool) :
    FileMapScope × Option Nat :=
  match alookup (cacheOf s t) f with
  | some tok => (poke s t f, some tok)
  | none =>
    if loadOk then
      let s1 := insertEntry s t f
      (if s1.max < s1.openedFiles then evictHead s1 else s1, some s.totalOpened)
    else
      ({ s with loadFailedCalls := s.loadFailedCalls ++ [f] }, none)

/-- A fresh scope, `FileMapScope(project, m)` (Project.h:249). -/
def initScope (m : Nat) : FileMapScope :=
  { symbolNames := [], symbols := [], targets := [], usrs := [],
    openedFiles := 0, totalOpened := 0, max := m,
    entryList := [], entryMap := [], loadFailedCalls := [] }

/-- A sequence of `open<Kind>(fileId)` calls within one query scope. -/
def runOps (s : FileMapScope) : List (FileMapType × Nat × Bool) → FileMapScope
  | [] => s
  | (t, f, ok) :: rest => runOps (openFileMap s t f ok).1 rest

@[simp] theorem setCache_entryList (s : FileMapScope) (t : FileMapType)
    (c : List (Nat × Nat)) : (setCache s t c).entryList = s.entryList := by
  cases t <;> rfl

@[simp] theorem setCache_entryMap (s : FileMapScope) (t : FileMapType)
    (c : List (Nat × Nat)) : (setCache s t c).entryMap = s.entryMap := by
  cases t <;> rfl

@[simp] theorem setCache_openedFiles (s : FileMapScope) (t : FileMapType)
    (c : List (Nat × Nat)) : (setCache s t c).openedFiles = s.openedFiles := by
  cases t <;> rfl

@[simp] theorem setCache_totalOpened (s : FileMapScope) (t : FileMapType)
    (c : List (Nat × Nat)) : (setCache s t c).totalOpened = s.totalOpened := by
  cases t <;> rfl

@[simp] theorem setCache_max (s : FileMapScope) (t : FileMapType)
    (c : List (Nat × Nat)) : (setCache s t c).max = s.max := by
  cases t <;> rfl

@[simp] theorem setCache_loadFailedCalls (s : FileMapScope) (t : FileMapType)
    (c : List (Nat × Nat)) : (setCache s t c).loadFailedCalls = s.loadFailedCalls := by
  cases t <;> rfl

theorem cacheOf_setCache (s : FileMapScope) (t t' : FileMapType)
    (c : List (Nat × Nat)) :
    cacheOf (setCache s t c) t' = if t' = t then c else cacheOf s t' := by
  cases t <;> cases t' <;> simp [cacheOf, setCache]

@[simp] theorem cacheOf_poke (s : FileMapScope) (t : FileMapType) (f : Nat)
    (t' : FileMapType) : cacheOf (poke s t f) t' = cacheOf s t' := by
  cases t' <;> rfl

@[simp] theorem poke_entryMap (s : FileMapScope) (t : FileMapType) (f : Nat) :
    (poke s t f).entryMap = s.entryMap := rfl

@[simp] theorem poke_openedFiles (s : FileMapScope) (t : FileMapType) (f : Nat) :
    (poke s t f).openedFiles = s.openedFiles := rfl

@[simp] theorem poke_totalOpened (s : FileMapScope) (t : FileMapType) (f : Nat) :
    (poke s t f).totalOpened = s.totalOpened := rfl

@[simp] theorem poke_max (s : FileMapScope) (t : FileMapType) (f : Nat) :
    (poke s t f).max = s.max := rfl

@[simp] theorem insertEntry_entryList (s : FileMapScope) (t : FileMapType) (f : Nat) :
    (insertEntry s t f).entryList = s.entryList ++ [⟨t, f⟩] := by
  simp [insertEntry]

@[simp] theorem insertEntry_entryMap (s : FileMapScope) (t : FileMapType) (f : Nat) :
    (insertEntry s t f).entryMap = minsert s.entryMap ⟨t, f⟩ := by
  simp [insertEntry]

@[simp] theorem insertEntry_openedFiles (s : FileMapScope) (t : FileMapType) (f : Nat) :
    (insertEntry s t f).openedFiles = s.openedFiles + 1 := by
  simp [insertEntry]

@[simp] theorem insertEntry_totalOpened (s : FileMapScope) (t : FileMapType) (f : Nat) :
    (insertEntry s t f).totalOpened = s.totalOpened + 1 := by
  simp [insertEntry]

@[simp] theorem insertEntry_max (s : FileMapScope) (t : FileMapType) (f : Nat) :
    (insertEntry s t f).max = s.max := by
  simp [insertEntry]

theorem cacheOf_insertEntry (s : FileMapScope) (t : FileMapType) (f : Nat)
    (t' : FileMapType) :
    cacheOf (insertEntry s t f) t' =
      if t' = t then ainsert (cacheOf s t) f s.totalOpened else cacheOf s t' := by
  have h1 : cacheOf (insertEntry s t f) t' =
      cacheOf (setCache s t (ainsert (cacheOf s t) f s.totalOpened)) t' := by
    cases t' <;> rfl
  rw [h1, cacheOf_setCache]

@[simp] theorem LRUKey_type_mk (t : FileMapType) (f : Nat) :
    (⟨t, f⟩ : LRUKey).type = t := rfl

@[simp] theorem LRUKey_fileId_mk (t : FileMapType) (f : Nat) :
    (⟨t, f⟩ : LRUKey).fileId = f := rfl

@[simp] theorem poke_entryList (s : FileMapScope) (t : FileMapType) (f : Nat) :
    (poke s t f).entryList = s.entryList.erase ⟨t, f⟩ ++ [⟨t, f⟩] := rfl

theorem evictHead_entryList (s : FileMapScope) (e : LRUKey) (rest : List LRUKey)
    (h : s.entryList = e :: rest) : (evictHead s).entryList = rest := by
  unfold evictHead
  rw [h]

theorem evictHead_entryMap (s : FileMapScope) (e : LRUKey) (rest : List LRUKey)
    (h : s.entryList = e :: rest) :
    (evictHead s).entryMap = s.entryMap.filter (fun k => k ≠ e) := by
  unfold evictHead
  rw [h]

theorem evictHead_openedFiles (s : FileMapScope) (e : LRUKey) (rest : List LRUKey)
    (h : s.entryList = e :: rest) :
    (evictHead s).openedFiles = s.openedFiles - 1 := by
  unfold evictHead
  rw [h]

theorem evictHead_totalOpened (s : FileMapScope) (e : LRUKey) (rest : List LRUKey)
    (h : s.entryList = e :: rest) :
    (evictHead s).totalOpened = s.totalOpened := by
  obtain ⟨et, ef⟩ := e
  unfold evictHead
  rw [h]
  cases et <;> rfl

theorem evictHead_max (s : FileMapScope) (e : LRUKey) (rest : List LRUKey)
    (h : s.entryList = e :: rest) :
    (evictHead s).max = s.max := by
  obtain ⟨et, ef⟩ := e
  unfold evictHead
  rw [h]
  cases et <;> rfl

theorem cacheOf_evictHead (s : FileMapScope) (e : LRUKey) (rest : List LRUKey)
    (h : s.entryList = e :: rest) (kt : FileMapType) :
    cacheOf (evictHead s) kt =
      if kt = e.type then aremove (cacheOf s e.type) e.fileId else cacheOf s kt := by
  obtain ⟨et, ef⟩ := e
  unfold evictHead
  rw [h]
  cases kt <;> cases et <;> simp [cacheOf, setCache]

theorem openFileMap_cached (s : FileMapScope) (t : FileMapType) (f : Nat)
    (ok : Bool) {tok : Nat} (hc : alookup (cacheOf s t) f = some tok) :
    openFileMap s t f ok = (poke s t f, some tok) := by
  unfold openFileMap
  rw [hc]

theorem openFileMap_fail (s : FileMapScope) (t : FileMapType) (f : Nat)
    (hc : alookup (cacheOf s t) f = none) :
    openFileMap s t f false =
      ({ s with loadFailedCalls := s.loadFailedCalls ++ [f] }, none) := by
  unfold openFileMap
  rw [hc]
  rfl

theorem openFileMap_load (s : FileMapScope) (t : FileMapType) (f : Nat)
    (hc : alookup (cacheOf s t) f = none) :
    openFileMap s t f true =
      (if (insertEntry s t f).max < (insertEntry s t f).openedFiles then
        evictHead (insertEntry s t f)
      else insertEntry s t f, some s.totalOpened) := by
  unfold openFileMap
  rw [hc]
  rfl

theorem mem_minsert (m : List LRUKey) (k a : LRUKey) :
    a ∈ minsert m k ↔ a ∈ m ∨ a = k := by
  unfold minsert
  by_cases h : k ∈ m
  · rw [if_pos h]
    constructor
    · exact Or.inl
    · rintro (ha | rfl)
      · exact ha
      · exact h
  · rw [if_neg h]
    simp

/-- The scope invariant: the LRU list has no duplicate entries, its
    contents coincide with `entryMap` and with the union of the four kind
    caches, its length is the open count, and the open count is bounded by
    `max`. -/
def ScopeInv (s : FileMapScope) : Prop :=
  s.entryList.Nodup ∧
  (∀ k : LRUKey, k ∈ s.entryList ↔ k ∈ s.entryMap) ∧
  (∀ (kt : FileMapType) (kf : Nat),
    (⟨kt, kf⟩ : LRUKey) ∈ s.entryList ↔ (alookup (cacheOf s kt) kf).isSome) ∧
  s.entryList.length = s.openedFiles ∧
  s.openedFiles ≤ s.max

theorem scopeInv_init (m : Nat) : ScopeInv (initScope m) := by
  refine ⟨List.nodup_nil, ?_, ?_, rfl, Nat.zero_le m⟩
  · intro k
    simp [initScope]
  · intro kt kf
    cases kt <;> simp [initScope, cacheOf, alookup]

theorem insertEntry_cache_isSome (s : FileMapScope) (t : FileMapType) (f : Nat)
    (hcache : ∀ (kt : FileMapType) (kf : Nat),
      (⟨kt, kf⟩ : LRUKey) ∈ s.entryList ↔ (alookup (cacheOf s kt) kf).isSome)
    (hc : alookup (cacheOf s t) f = none) (kt : FileMapType) (kf : Nat) :
    (alookup (cacheOf (insertEntry s t f) kt) kf).isSome ↔
      ((⟨kt, kf⟩ : LRUKey) ∈ s.entryList ∨ (⟨kt, kf⟩ : LRUKey) = ⟨t, f⟩) := by
  rw [cacheOf_insertEntry]
  by_cases ht : kt = t
  · subst ht
    rw [if_pos rfl]
    by_cases hf : kf = f
    · subst hf
      rw [alookup_ainsert_self]
      simp
    · have hne : f ≠ kf := fun hh => hf hh.symm
      rw [alookup_ainsert_ne _ _ hne, ← hcache kt kf]
      constructor
      · exact Or.inl
      · rintro (hm | he)
        · exact hm
        · exact absurd (congrArg LRUKey.fileId he) hf
  · rw [if_neg ht, ← hcache kt kf]
    constructor
    · exact Or.inl
    · rintro (hm | he)
      · exact hm
      · exact absurd (congrArg LRUKey.type he) ht

theorem scopeInv_openFileMap (s : FileMapScope) (t : FileMapType) (f : Nat)
    (ok : Bool) (h : ScopeInv s) : ScopeInv (openFileMap s t f ok).1 := by
  obtain ⟨hnd, hmap, hcache, hlen, hle⟩ := h
  cases hcl : alookup (cacheOf s t) f with
  | some tok =>
    rw [openFileMap_cached s t f ok hcl]
    show ScopeInv (poke s t f)
    have hkmem : (⟨t, f⟩ : LRUKey) ∈ s.entryList := by
      rw [hcache t f, hcl]
      rfl
    have hmemiff : ∀ k : LRUKey,
        k ∈ s.entryList.erase ⟨t, f⟩ ++ [⟨t, f⟩] ↔ k ∈ s.entryList := by
      intro k
      rw [List.mem_append, hnd.mem_erase_iff, List.mem_singleton]
      constructor
      · rintro (⟨_, hm⟩ | rfl)
        · exact hm
        · exact hkmem
      · intro hm
        by_cases hk : k = ⟨t, f⟩
        · exact Or.inr hk
        · exact Or.inl ⟨hk, hm⟩
    refine ⟨?_, ?_, ?_, ?_, ?_⟩
    · rw [poke_entryList, List.nodup_append]
      refine ⟨hnd.erase _, List.nodup_singleton _, ?_⟩
      intro x hx hx2
      rw [List.mem_singleton] at hx2
      subst hx2
      exact (hnd.mem_erase_iff.mp hx).1 rfl
    · intro k
      rw [poke_entryList, poke_entryMap, hmemiff k]
      exact hmap k
    · intro kt kf
      rw [poke_entryList, cacheOf_poke, hmemiff ⟨kt, kf⟩]
      exact hcache kt kf
    · rw [poke_entryList, poke_openedFiles, List.length_append,
        List.length_erase_of_mem hkmem]
      have hpos : 0 < s.entryList.length := List.length_pos_of_mem hkmem
      simp only [List.length_singleton]
      omega
    · rw [poke_openedFiles, poke_max]
      exact hle
  | none =>
    cases ok with
    | false =>
      rw [openFileMap_fail s t f hcl]
      show ScopeInv { s with loadFailedCalls := s.loadFailedCalls ++ [f] }
      refine ⟨hnd, hmap, ?_, hlen, hle⟩
      intro kt kf
      have hca : cacheOf { s with loadFailedCalls := s.loadFailedCalls ++ [f] } kt =
          cacheOf s kt := by
        cases kt <;> rfl
      rw [hca]
      exact hcache kt kf
    | true =>
      rw [openFileMap_load s t f hcl]
      show ScopeInv (if (insertEntry s t f).max < (insertEntry s t f).openedFiles then
        evictHead (insertEntry s t f) else insertEntry s t f)
      have hKnot : (⟨t, f⟩ : LRUKey) ∉ s.entryList := by
        intro hm
        have hsome := (hcache t f).mp hm
        rw [hcl] at hsome
        simp at hsome
      have hins := insertEntry_cache_isSome s t f hcache hcl
      simp only [insertEntry_max, insertEntry_openedFiles]
      by_cases hov : s.max < s.openedFiles + 1
      · rw [if_pos hov]
        have hfull : s.openedFiles = s.max := le_antisymm hle (by omega)
        cases hL : s.entryList with
        | nil =>
          have hzero : s.openedFiles = 0 := by
            rw [← hlen, hL]
            rfl
          have hs1 : (insertEntry s t f).entryList = (⟨t, f⟩ : LRUKey) :: [] := by
            rw [insertEntry_entryList, hL]
            rfl
          refine ⟨?_, ?_, ?_, ?_, ?_⟩
          · rw [evictHead_entryList _ _ _ hs1]
            exact List.nodup_nil
          · intro k
            rw [evictHead_entryList _ _ _ hs1, evictHead_entryMap _ _ _ hs1,
              insertEntry_entryMap]
            constructor
            · intro hk
              exact absurd hk (List.not_mem_nil k)
            · intro hk
              rw [List.mem_filter] at hk
              obtain ⟨hk1, hk2⟩ := hk
              rw [mem_minsert] at hk1
              rcases hk1 with hk1 | rfl
              · have hkL := (hmap k).mpr hk1
                rw [hL] at hkL
                exact absurd hkL (List.not_mem_nil k)
              · simp at hk2
          · intro kt kf
            rw [evictHead_entryList _ _ _ hs1, cacheOf_evictHead _ _ _ hs1 kt]
            simp only [LRUKey_type_mk, LRUKey_fileId_mk]
            apply iff_of_false (List.not_mem_nil _)
            by_cases hkt : kt = t
            · rw [if_pos hkt]
              by_cases hkf : kf = f
              · rw [hkf, alookup_aremove_self]
                simp
              · rw [alookup_aremove_ne _ hkf, hins t kf]
                rintro (hm | he)
                · rw [hL] at hm
                  exact List.not_mem_nil _ hm
                · exact hkf (congrArg LRUKey.fileId he)
            · rw [if_neg hkt, hins kt kf]
              rintro (hm | he)
              · rw [hL] at hm
                exact List.not_mem_nil _ hm
              · exact hkt (congrArg LRUKey.type he)
          · rw [evictHead_entryList _ _ _ hs1, evictHead_openedFiles _ _ _ hs1,
              insertEntry_openedFiles]
            simp only [List.length_nil]
            omega
          · rw [evictHead_openedFiles _ _ _ hs1, evictHead_max _ _ _ hs1,
              insertEntry_openedFiles, insertEntry_max]
            omega
        | cons e L2 =>
          obtain ⟨et, ef⟩ := e
          have hs1 : (insertEntry s t f).entryList =
              (⟨et, ef⟩ : LRUKey) :: (L2 ++ [⟨t, f⟩]) := by
            rw [insertEntry_entryList, hL]
            rfl
          have heL : (⟨et, ef⟩ : LRUKey) ∈ s.entryList := by
            rw [hL]
            exact List.mem_cons_self _ _
          have heK : (⟨et, ef⟩ : LRUKey) ≠ ⟨t, f⟩ := fun hh => hKnot (hh ▸ heL)
          have hndL : ((⟨et, ef⟩ : LRUKey) :: L2).Nodup := hL ▸ hnd
          obtain ⟨henotin, hndL2⟩ := List.nodup_cons.mp hndL
          have hmemL2 : ∀ k : LRUKey, k ∈ L2 ↔ (k ∈ s.entryList ∧ k ≠ ⟨et, ef⟩) := by
            intro k
            rw [hL, List.mem_cons]
            constructor
            · intro hk
              exact ⟨Or.inr hk, fun hh => henotin (hh ▸ hk)⟩
            · rintro ⟨(rfl | hk), hne⟩
              · exact absurd rfl hne
              · exact hk
          have hmem2 : ∀ k : LRUKey, k ∈ L2 ++ [⟨t, f⟩] ↔
              ((k ∈ s.entryList ∨ k = ⟨t, f⟩) ∧ k ≠ ⟨et, ef⟩) := by
            intro k
            rw [List.mem_append, List.mem_singleton, hmemL2 k]
            constructor
            · rintro (⟨hkL, hke⟩ | rfl)
              · exact ⟨Or.inl hkL, hke⟩
              · exact ⟨Or.inr rfl, fun hh => heK hh.symm⟩
            · rintro ⟨(hkL | rfl), hne⟩
              · exact Or.inl ⟨hkL, hne⟩
              · exact Or.inr rfl
          refine ⟨?_, ?_, ?_, ?_, ?_⟩
          · rw [evictHead_entryList _ _ _ hs1, List.nodup_append]
            refine ⟨hndL2, List.nodup_singleton _, ?_⟩
            intro x hx hx2
            rw [List.mem_singleton] at hx2
            subst hx2
            exact hKnot ((hmemL2 _).mp hx).1
          · intro k
            rw [evictHead_entryList _ _ _ hs1, evictHead_entryMap _ _ _ hs1,
              insertEntry_entryMap, hmem2 k, List.mem_filter, mem_minsert]
            constructor
            · rintro ⟨hor, hne⟩
              refine ⟨?_, by simp [hne]⟩
              rcases hor with hkL | rfl
              · exact Or.inl ((hmap k).mp hkL)
              · exact Or.inr rfl
            · rintro ⟨hor, hdec⟩
              have hne : k ≠ ⟨et, ef⟩ := by
                simpa using hdec
              refine ⟨?_, hne⟩
              rcases hor with hkM | rfl
              · exact Or.inl ((hmap k).mpr hkM)
              · exact Or.inr rfl
          · intro kt kf
            rw [evictHead_entryList _ _ _ hs1, cacheOf_evictHead _ _ _ hs1 kt,
              hmem2 ⟨kt, kf⟩]
            simp only [LRUKey_type_mk, LRUKey_fileId_mk]
            by_cases hkt : kt = et
            · by_cases hkf : kf = ef
              · rw [hkt, hkf, if_pos rfl, alookup_aremove_self]
                apply iff_of_false
                · rintro ⟨-, hne⟩
                  exact hne rfl
                · intro hcontra
                  simp at hcontra
              · rw [hkt, if_pos rfl, alookup_aremove_ne _ hkf, hins et kf]
                constructor
                · rintro ⟨hor, -⟩
                  exact hor
                · intro hor
                  exact ⟨hor, fun hh => hkf (congrArg LRUKey.fileId hh)⟩
            · rw [if_neg hkt, hins kt kf]
              constructor
              · rintro ⟨hor, -⟩
                exact hor
              · intro hor
                exact ⟨hor, fun hh => hkt (congrArg LRUKey.type hh)⟩
          · rw [evictHead_entryList _ _ _ hs1, evictHead_openedFiles _ _ _ hs1,
              insertEntry_openedFiles, List.length_append]
            have hlenL : s.entryList.length = L2.length + 1 := by
              rw [hL]
              rfl
            simp only [List.length_singleton]
            omega
          · rw [evictHead_openedFiles _ _ _ hs1, evictHead_max _ _ _ hs1,
              insertEntry_openedFiles, insertEntry_max]
            omega
      · rw [if_neg hov]
        refine ⟨?_, ?_, ?_, ?_, ?_⟩
        · rw [insertEntry_entryList, List.nodup_append]
          refine ⟨hnd, List.nodup_singleton _, ?_⟩
          intro x hx hx2
          rw [List.mem_singleton] at hx2
          subst hx2
          exact hKnot hx
        · intro k
          rw [insertEntry_entryList, insertEntry_entryMap, List.mem_append,
            List.mem_singleton, mem_minsert, hmap k]
        · intro kt kf
          rw [insertEntry_entryList, List.mem_append, List.mem_singleton, hins kt kf]
        · rw [insertEntry_entryList, insertEntry_openedFiles, List.length_append]
          simp only [List.length_singleton]
          omega
        · rw [insertEntry_openedFiles, insertEntry_max]
          omega

theorem openFileMap_max (s : FileMapScope) (t : FileMapType) (f : Nat) (ok : Bool) :
    (openFileMap s t f ok).1.max = s.max := by
  cases hcl : alookup (cacheOf s t) f with
  | some tok =>
    rw [openFileMap_cached s t f ok hcl]
    rfl
  | none =>
    cases ok with
    | false =>
      rw [openFileMap_fail s t f hcl]
    | true =>
      rw [openFileMap_load s t f hcl]
      show (if (insertEntry s t f).max < (insertEntry s t f).openedFiles then
        evictHead (insertEntry s t f) else insertEntry s t f).max = s.max
      by_cases hov : (insertEntry s t f).max < (insertEntry s t f).openedFiles
      · rw [if_pos hov]
        cases hs1 : (insertEntry s t f).entryList with
        | nil =>
          unfold evictHead
          rw [hs1]
          exact insertEntry_max s t f
        | cons e rest =>
          rw [evictHead_max _ _ _ hs1, insertEntry_max]
      · rw [if_neg hov, insertEntry_max]

theorem scopeInv_runOps (s : FileMapScope) (ops : List (FileMapType × Nat × Bool))
    (h : ScopeInv s) : ScopeInv (runOps s ops) := by
  induction ops generalizing s with
  | nil => exact h
  | cons op rest ih =>
    obtain ⟨t, f, ok⟩ := op
    exact ih _ (scopeInv_openFileMap s t f ok h)

theorem runOps_max (s : FileMapScope) (ops : List (FileMapType × Nat × Bool)) :
    (runOps s ops).max = s.max := by
  induction ops generalizing s with
  | nil => rfl
  | cons op rest ih =>
    obtain ⟨t, f, ok⟩ := op
    show (runOps (openFileMap s t f ok).1 rest).max = s.max
    rw [ih, openFileMap_max]

/-- Claim C1: for every sequence of `open<Kind>(fileId)` calls within a
    single query scope, the LRU entry list and the union of the four kind
    maps hold exactly the same `(kind, fileId)` entries, and the number of
    open entries (`openedFiles`, which equals the LRU list's length) is at
    most `max`. -/
theorem fileMapScope_lru_invariant (m : Nat)
    (ops : List (FileMapType × Nat × Bool)) :
    (∀ k : LRUKey, k ∈ (runOps (initScope m) ops).entryList ↔
      (alookup (cacheOf (runOps (initScope m) ops) k.type) k.fileId).isSome) ∧
    (runOps (initScope m) ops).entryList.length =
      (runOps (initScope m) ops).openedFiles ∧
    (runOps (initScope m) ops).openedFiles ≤ m := by
  obtain ⟨-, -, hcache, hlen, hle⟩ :=
    scopeInv_runOps (initScope m) ops (scopeInv_init m)
  refine ⟨?_, hlen, ?_⟩
  · intro k
    obtain ⟨kt, kf⟩ := k
    exact hcache kt kf
  · have hm : (runOps (initScope m) ops).max = m := runOps_max (initScope m) ops
    exact le_of_le_of_eq hle hm

/-- Claim C2: re-opening a cached `(kind, fileId)` returns the cached map
    and only moves its LRU entry to the tail (`totalOpened`, the caches and
    the counters are untouched); a first open that would push `openedFiles`
    past `max` evicts the LRU head: it leaves the list, its key leaves
    `entryMap`, its file id leaves its kind map, and the open count is
    back to `max`; concretely, with `max = 2`, opening `(Symbols,1)`,
    `(Symbols,2)`, re-opening `(Symbols,1)` and opening `(Symbols,3)`
    evicts `(Symbols,2)`. -/
theorem openFileMap_cached_and_eviction :
    (∀ (s : FileMapScope) (t : FileMapType) (f : Nat) (ok : Bool) (tok : Nat),
      alookup (cacheOf s t) f = some tok →
      openFileMap s t f ok =
        ({ s with entryList := s.entryList.erase ⟨t, f⟩ ++ [⟨t, f⟩] }, some tok)) ∧
    (∀ (s : FileMapScope) (t : FileMapType) (f : Nat) (e : LRUKey)
      (rest : List LRUKey),
      alookup (cacheOf s t) f = none → s.openedFiles = s.max →
      s.entryList = e :: rest →
      (openFileMap s t f true).1.entryList = rest ++ [⟨t, f⟩] ∧
      e ∉ (openFileMap s t f true).1.entryMap ∧
      alookup (cacheOf (openFileMap s t f true).1 e.type) e.fileId = none ∧
      (openFileMap s t f true).1.openedFiles = s.max ∧
      (openFileMap s t f true).1.totalOpened = s.totalOpened + 1) ∧
    (let sF := runOps (initScope 2)
      [(.Symbols, 1, true), (.Symbols, 2, true), (.Symbols, 1, true),
       (.Symbols, 3, true)]
     (⟨.Symbols, 2⟩ : LRUKey) ∉ sF.entryList ∧
      alookup sF.symbols 2 = none ∧
      sF.entryList = [⟨.Symbols, 1⟩, ⟨.Symbols, 3⟩] ∧
      sF.openedFiles = 2 ∧ sF.totalOpened = 3) := by
  refine ⟨?_, ?_, ?_⟩
  · intro s t f ok tok hc
    rw [openFileMap_cached s t f ok hc]
    rfl
  · intro s t f e rest hc hfull hlist
    have heq : (openFileMap s t f true).1 = evictHead (insertEntry s t f) := by
      rw [openFileMap_load s t f hc]
      show (if (insertEntry s t f).max < (insertEntry s t f).openedFiles then
        evictHead (insertEntry s t f) else insertEntry s t f) = _
      rw [if_pos (by rw [insertEntry_max, insertEntry_openedFiles, hfull]; omega)]
    have hs1 : (insertEntry s t f).entryList = e :: (rest ++ [⟨t, f⟩]) := by
      rw [insertEntry_entryList, hlist]
      rfl
    refine ⟨?_, ?_, ?_, ?_, ?_⟩
    · rw [heq, evictHead_entryList _ _ _ hs1]
    · rw [heq, evictHead_entryMap _ _ _ hs1]
      intro hm
      rw [List.mem_filter] at hm
      exact absurd hm.2 (by simp)
    · rw [heq, cacheOf_evictHead _ _ _ hs1 e.type, if_pos rfl, alookup_aremove_self]
    · rw [heq, evictHead_openedFiles _ _ _ hs1, insertEntry_openedFiles]
      omega
    · rw [heq, evictHead_totalOpened _ _ _ hs1, insertEntry_totalOpened]
  · decide

/-- Witness for claim C2: part one re-opens `(Symbols, 1)` in a scope that
    already holds it; part two opens `(Symbols, 2)` in a full scope with
    `max = 1`, evicting `(Symbols, 1)`. -/
theorem openFileMap_cached_and_eviction_witness :
    openFileMap (runOps (initScope 2) [(.Symbols, 1, true)]) .Symbols 1 false =
      ({ runOps (initScope 2) [(.Symbols, 1, true)] with
          entryList := (runOps (initScope 2)
            [(.Symbols, 1, true)]).entryList.erase ⟨.Symbols, 1⟩ ++
            [⟨.Symbols, 1⟩] }, some 0) ∧
    ((openFileMap (runOps (initScope 1) [(.Symbols, 1, true)])
        .Symbols 2 true).1.entryList = [] ++ [⟨.Symbols, 2⟩] ∧
      (⟨.Symbols, 1⟩ : LRUKey) ∉ (openFileMap (runOps (initScope 1)
        [(.Symbols, 1, true)]) .Symbols 2 true).1.entryMap ∧
      alookup (cacheOf (openFileMap (runOps (initScope 1) [(.Symbols, 1, true)])
        .Symbols 2 true).1 (⟨.Symbols, 1⟩ : LRUKey).type)
        (⟨.Symbols, 1⟩ : LRUKey).fileId = none ∧
      (openFileMap (runOps (initScope 1) [(.Symbols, 1, true)])
        .Symbols 2 true).1.openedFiles =
        (runOps (initScope 1) [(.Symbols, 1, true)]).max ∧
      (openFileMap (runOps (initScope 1) [(.Symbols, 1, true)])
        .Symbols 2 true).1.totalOpened =
        (runOps (initScope 1) [(.Symbols, 1, true)]).totalOpened + 1) := by
  have h := openFileMap_cached_and_eviction
  constructor
  · exact h.1 (runOps (initScope 2) [(.Symbols, 1, true)]) .Symbols 1 false 0
      (by decide)
  · exact h.2.1 (runOps (initScope 1) [(.Symbols, 1, true)]) .Symbols 2
      ⟨.Symbols, 1⟩ [] (by decide) (by decide) (by decide)

/-- Claim C3: when the `FileMap` load fails for an uncached
    `(kind, fileId)`, `openFileMap` leaves the entire scope unchanged (no
    kind map, LRU list, entry map or counter is touched), calls
    `loadFailed(fileId)` exactly once, and returns no map. -/
theorem openFileMap_loadFailure (s : FileMapScope) (t : FileMapType) (f : Nat)
    (h : alookup (cacheOf s t) f = none) :
    openFileMap s t f false =
      ({ s with loadFailedCalls := s.loadFailedCalls ++ [f] }, none) ∧
    (openFileMap s t f false).1.loadFailedCalls = s.loadFailedCalls ++ [f] := by
  refine ⟨openFileMap_fail s t f h, ?_⟩
  rw [openFileMap_fail s t f h]

/-- Witness for claim C3: opening file 7's symbols map fails in a fresh
    scope. -/
theorem openFileMap_loadFailure_witness :
    openFileMap (initScope 1) .Symbols 7 false =
      ({ initScope 1 with
          loadFailedCalls := (initScope 1).loadFailedCalls ++ [7] }, none) ∧
    (openFileMap (initScope 1) .Symbols 7 false).1.loadFailedCalls =
      (initScope 1).loadFailedCalls ++ [7] :=
  openFileMap_loadFailure (initScope 1) .Symbols 7 rfl

end Rtags
